import Mathlib

/-!
Verification of the Photonic Wallet chain-client core: a shallow embedding of
the size estimator and coin selector (patched filepay coinselect, from the
repository diff), the chain sync engine (buildUpdateTXOs) and the connection
manager retry machine (worker), together with proofs of the spec claims.

Conventions of the embedding:
* JavaScript numbers that can be NaN (or non-finite / non-integral) are
  modelled as Option Int, with none playing the role of NaN; arithmetic and
  comparisons propagate none exactly as JS propagates NaN (every comparison
  with NaN is false).
* A JS throw is modelled with Except; the distinct error strings of the code
  become constructors of TxError.
* Database tables (Dexie) are modelled as lists of records; updates by
  primary key are maps over the list.
-/

namespace Photonic

/-! ### NaN-style arithmetic over Option Int -/

/-- Addition with NaN propagation: a + NaN = NaN. -/
def nAdd (a b : Option Int) : Option Int :=
  a.bind (fun x => b.map (fun y => x + y))

/-- Subtraction with NaN propagation. -/
def nSub (a b : Option Int) : Option Int :=
  a.bind (fun x => b.map (fun y => x - y))

/-- JS comparison a >= b: false when either side is NaN. -/
def nGE (a b : Option Int) : Bool :=
  match a, b with
  | some x, some y => decide (y ≤ x)
  | _, _ => false

/-- JS comparison a > b: false when either side is NaN. -/
def nGT (a b : Option Int) : Bool :=
  match a, b with
  | some x, some y => decide (y < x)
  | _, _ => false

/-- uintOrNaN from utils.js: a value that is not a finite non-negative
integer becomes NaN (here: a negative or already-NaN value becomes none). -/
def uintOrNaN (v : Option Int) : Option Int :=
  v.bind (fun x => if x < 0 then none else some x)

/-- sumOrNaN from utils.js: reduce with uintOrNaN applied to each element,
NaN poisoning the whole sum. -/
def sumOrNaN (vs : List (Option Int)) : Option Int :=
  vs.foldl (fun a v => nAdd a (uintOrNaN v)) (some 0)

/-! ### Size estimator (utils.js, as patched by the repository diff) -/

/-- Error conditions of the estimator and selector, one per distinct throw
site of the code (plus the InvalidAmount taxonomy entry of the spec). -/
inductive TxError
  | invalidAmount
  | invalidVarInt
  | feeTooLarge
deriving DecidableEq, Repr

def TX_EMPTY_SIZE : Nat := 4 + 4

def TX_INPUT_BASE : Nat := 32 + 4 + 4

def TX_INPUT_PUBKEYHASH : Nat := 107

def TX_OUTPUT_BASE : Nat := 8

def TX_OUTPUT_PUBKEYHASH : Nat := 25

def TX_DUST_THRESHOLD : Nat := 1

/-- varIntSize from utils.js: tiered size of the compact count prefix;
none models the thrown Invalid VarInt error. -/
def varIntSize (n : Nat) : Option Nat :=
  if n < 253 then some 1
  else if n ≤ 65535 then some 3
  else if n ≤ 4294967295 then some 5
  else if n ≤ 18446744073709551615 then some 9
  else none

/-- A transaction input as the estimator sees it: an optional unlocking
script given as a hex string, and a value. none for the script means the
script is not yet known (pre-signing). -/
structure TxInput where
  script : Option String
  value : Option Int
deriving DecidableEq, Repr

/-- A candidate output: an optional locking script as a hex string and a
value. -/
structure TxOutput where
  script : Option String
  value : Option Int
deriving DecidableEq, Repr

/-- Script length in bytes used by inputBytes: the hex string length divided
by two (the diff fixes the 2x hex-character bug), or the 107-byte default
signature script placeholder when no script is given. JS would produce a
fractional length for an odd-length hex string; hex scripts have even
length, so Nat division agrees on the whole domain of interest. -/
def inputScriptLen (script : Option String) : Nat :=
  match script with
  | some s => s.length / 2
  | none => TX_INPUT_PUBKEYHASH

/-- inputBytes from utils.js: fixed base 40 plus varint prefix plus script
length. -/
def inputBytes (i : TxInput) : Option Nat :=
  let scriptLen := inputScriptLen i.script
  (varIntSize scriptLen).map (fun v => TX_INPUT_BASE + v + scriptLen)

/-- Script length in bytes used by outputBytes, defaulting to the 25-byte
pubkeyhash locking script. -/
def outputScriptLen (script : Option String) : Nat :=
  match script with
  | some s => s.length / 2
  | none => TX_OUTPUT_PUBKEYHASH

/-- outputBytes from utils.js: fixed base 8 plus varint prefix plus script
length. -/
def outputBytes (o : TxOutput) : Option Nat :=
  let scriptLen := outputScriptLen o.script
  (varIntSize scriptLen).map (fun v => TX_OUTPUT_BASE + v + scriptLen)

/-- Sum of estimated input sizes; none when some varint prefix is invalid. -/
def sumInputBytes (inputs : List TxInput) : Option Nat :=
  inputs.foldl (fun a i => a.bind (fun b => (inputBytes i).map (fun x => b + x))) (some 0)

/-- Sum of estimated output sizes; none when some varint prefix is invalid. -/
def sumOutputBytes (outputs : List TxOutput) : Option Nat :=
  outputs.foldl (fun a o => a.bind (fun b => (outputBytes o).map (fun x => b + x))) (some 0)

/-- Modelled from the spec: the diff shows only the NaN guard and the return
expression of transactionBytes; the computation of inSum and outSum is not
in the diff context. Per the spec, an input or output value that is not a
finite non-negative number must surface as InvalidAmount rather than a
NaN-propagated size, so the guard checks every value with uintOrNaN. -/
def valuesOk (inputs : List TxInput) (outputs : List TxOutput) : Bool :=
  inputs.all (fun i => (uintOrNaN i.value).isSome) &&
    outputs.all (fun o => (uintOrNaN o.value).isSome)

/-- transactionBytes from utils.js: empty-transaction base, varint prefix
for the input count, sum of input sizes, varint prefix for the output count,
sum of output sizes; the NaN guard throws InvalidAmount first. -/
def transactionBytes (inputs : List TxInput) (outputs : List TxOutput) :
    Except TxError Nat :=
  match sumInputBytes inputs, sumOutputBytes outputs with
  | some inSum, some outSum =>
    if valuesOk inputs outputs then
      match varIntSize inputs.length, varIntSize outputs.length with
      | some vi, some vo => .ok (TX_EMPTY_SIZE + vi + inSum + vo + outSum)
      | _, _ => .error .invalidVarInt
    else .error .invalidAmount
  | _, _ => .error .invalidVarInt

/-! ### Coin selector (accumulative.js, as patched by the repository diff) -/

/-- A selectable input (SelectableInput of the spec data model): a tracked
output with its outpoint, script, value, and the required marker meaning it
must be spent verbatim. -/
structure Utxo where
  txid : String
  vout : Nat
  script : Option String
  value : Option Int
  required : Bool
deriving DecidableEq, Repr

/-- View of a selectable input as an estimator input. -/
def toTxInput (u : Utxo) : TxInput :=
  { script := u.script, value := u.value }

/-- Result of a selection, mirroring the sparse JS result objects: failure
carries only a fee (the InsufficientFunds / NaN result object holding a
single fee field and no inputs or outputs), success carries the funded
transaction. -/
inductive SelectResult
  | failure (fee : Int)
  | success (inputs : List Utxo) (outputs : List TxOutput) (fee : Int)
deriving DecidableEq, Repr

/-- Modelled from the spec (4.2 step 1): availableInputs are partitioned
into the required inputs and the remainder; the diff shows the loop reading
addedRequiredUtxosStatus.nonRequiredInputs, the helper that computed this
partition is not in the diff context. -/
def requiredInputsOf (utxos : List Utxo) : List Utxo :=
  utxos.filter (fun u => u.required)

/-- The non-required remainder of availableInputs, in caller order. -/
def nonRequiredInputsOf (utxos : List Utxo) : List Utxo :=
  utxos.filter (fun u => !u.required)

/-- The stopping test of the accumulation loop (spec 4.2 step 4): running
input value at least running output value plus running fee, where the
running fee is feeRate times the accumulated byte size. A NaN total never
compares as funded. -/
def fundedAt (feeRate : Int) (outAccum inAccum : Option Int) (bytesAccum : Nat) : Bool :=
  nGE inAccum (nAdd outAccum (some (feeRate * (bytesAccum : Int))))

/-- Modelled from the spec (4.2 step 7): an output is dust when its value
does not exceed the fee to spend it later, computed with the same size
estimator (the fee at the given rate for one placeholder-signed input);
TX_DUST_THRESHOLD, set to 1 by the diff, is the dust multiplier. The body
of dustThreshold is not in the diff context. -/
def dustThreshold (feeRate : Int) : Int :=
  (TX_DUST_THRESHOLD : Int) * (feeRate * (((inputBytes { script := none, value := some 0 }).getD 0 : Nat) : Int))

/-- The blank change output used to price the change branch. -/
def changeOutput (changeScript : Option String) : TxOutput :=
  { script := changeScript, value := some 0 }

/-- Modelled from the spec (4.2 step 6): the change decision of finalize.
The leftover after also paying for the change output's own bytes is
computed; when it exceeds the dust threshold a change output carrying it is
appended, otherwise the leftover is discarded into the fee. -/
def withChange (inputs : List Utxo) (outputs : List TxOutput) (feeRate : Int)
    (changeScript : Option String) (bytesAccum changeBytes : Nat) : List TxOutput :=
  let feeAfterExtraOutput := feeRate * (((bytesAccum + changeBytes : Nat) : Int))
  let remainder := nSub (sumOrNaN (inputs.map Utxo.value))
    (nAdd (sumOrNaN (outputs.map TxOutput.value)) (some feeAfterExtraOutput))
  if nGT remainder (some (dustThreshold feeRate)) then
    outputs ++ [{ script := changeScript, value := remainder }]
  else outputs

/-- The fee finalize computes for the given change decision: total input
value minus total output value after the change decision. -/
def finalizeFee (inputs : List Utxo) (outputs : List TxOutput) (feeRate : Int)
    (changeScript : Option String) (bytesAccum changeBytes : Nat) : Option Int :=
  nSub (sumOrNaN (inputs.map Utxo.value))
    (sumOrNaN ((withChange inputs outputs feeRate changeScript bytesAccum changeBytes).map TxOutput.value))

/-- finalize from utils.js: re-estimate the selected transaction, decide on
a change output, and apply the emergency fee cap of the diff: a fee above
10000000000 fails closed with the Too large fee error. The NaN fee path
returns the sparse failure object with the inner fee. The change decision
and fee computation around the visible cap are modelled from the spec. -/
def finalize (inputs : List Utxo) (outputs : List TxOutput) (feeRate : Int)
    (changeScript : Option String) : Except TxError SelectResult :=
  match transactionBytes (inputs.map toTxInput) outputs with
  | .error e => .error e
  | .ok bytesAccum =>
    match outputBytes (changeOutput changeScript) with
    | none => .error .invalidVarInt
    | some changeBytes =>
      match finalizeFee inputs outputs feeRate changeScript bytesAccum changeBytes with
      | none => .ok (.failure (feeRate * (bytesAccum : Int)))
      | some fee =>
        if 10000000000 < fee then .error .feeTooLarge
        else .ok (.success inputs (withChange inputs outputs feeRate changeScript bytesAccum changeBytes) fee)

/-- The accumulation loop. The per-step reads are the lines visible in the
diff (utxo taken from the non-required remainder in index order, utxoBytes
from inputBytes, utxoFee as feeRate times utxoBytes, utxoValue through
uintOrNaN); the initialization and the stopping rule are modelled from the
spec (4.2 steps 3 and 4): stop as soon as the running input value covers
the running output value plus the running fee, otherwise draw the next
input, adding its value and its byte size (hence its marginal fee) to the
running totals. Returns the drawn inputs and the final running totals. -/
def accumGo (feeRate : Int) (outAccum : Option Int) :
    List Utxo → Option Int → Nat → Except TxError (List Utxo × Option Int × Nat)
  | remaining, inAccum, bytesAccum =>
    if fundedAt feeRate outAccum inAccum bytesAccum then .ok ([], inAccum, bytesAccum)
    else
      match remaining with
      | [] => .ok ([], inAccum, bytesAccum)
      | utxo :: rest =>
        match inputBytes (toTxInput utxo) with
        | none => .error .invalidVarInt
        | some utxoBytes =>
          let _utxoFee := feeRate * (utxoBytes : Int)
          let utxoValue := uintOrNaN utxo.value
          (accumGo feeRate outAccum rest (nAdd inAccum utxoValue) (bytesAccum + utxoBytes)).map
            (fun r => (utxo :: r.1, r.2))

/-- accumulative from accumulative.js. Modelled from the spec where the diff
gives no context (4.2 steps 1, 2 and 5): a non-finite or negative fee rate
is an InvalidAmount caller bug; the running value starts from the required
inputs and the running byte size from the skeleton of the transaction
(empty-transaction overhead, mandatory outputs and required inputs); when
the loop exhausts the remainder without reaching full funding the selection
fails with the sparse InsufficientFunds object carrying only a fee. -/
def accumulative (utxos : List Utxo) (outputs : List TxOutput) (feeRate : Int)
    (changeScript : Option String) : Except TxError SelectResult :=
  if (uintOrNaN (some feeRate)).isNone then .error .invalidAmount
  else
    let required := requiredInputsOf utxos
    let nonRequired := nonRequiredInputsOf utxos
    let inAccum0 := sumOrNaN (required.map Utxo.value)
    match transactionBytes (required.map toTxInput) outputs with
    | .error e => .error e
    | .ok bytes0 =>
      let outAccum := sumOrNaN (outputs.map TxOutput.value)
      match accumGo feeRate outAccum nonRequired inAccum0 bytes0 with
      | .error e => .error e
      | .ok (chosen, inAccum, bytesAccum) =>
        if fundedAt feeRate outAccum inAccum bytesAccum then
          finalize (required ++ chosen) outputs feeRate changeScript
        else
          .ok (.failure (feeRate * (bytesAccum : Int)))

/-! ### Chain sync engine (buildUpdateTXOs from updateTxos) -/

/-- The structured sync-in-progress marker stored with each subscription. -/
structure SyncStatus where
  done : Bool
  numSynced : Option Nat
  numTotal : Option Nat
deriving DecidableEq, Repr

/-- A row of the subscriptionStatus table, keyed by scriptHash. -/
structure SubscriptionRecord where
  scriptHash : String
  status : String
  contractType : String
  sync : SyncStatus
deriving DecidableEq, Repr

/-- A row of the txo table. The primary key id is auto-assigned by the
store, so a record built by the engine but not yet inserted carries none.
height none models the Infinity sentinel for an unconfirmed output. -/
structure TxORecord where
  id : Option Nat
  txid : String
  vout : Nat
  script : String
  value : Int
  height : Option Nat
  spent : Nat
  change : Nat
  contractType : String
deriving DecidableEq, Repr

/-- An unspent output as reported by the electrum server. -/
structure ElectrumUtxo where
  tx_hash : String
  tx_pos : Nat
  value : Int
  height : Nat
deriving DecidableEq, Repr

/-- The persistent state the engine touches: the txo cache, the
subscription status table and the set of transaction ids the wallet itself
broadcast. -/
structure Db where
  subscriptionStatus : List SubscriptionRecord
  txo : List TxORecord
  broadcast : List String
deriving DecidableEq, Repr

/-- A write issued against the subscriptionStatus table, recorded so that
effects performed on every path (including the short-circuit path) are
visible in the embedding. -/
inductive SubWrite
  | update (scriptHash : String) (sync : SyncStatus)
  | put (rec : SubscriptionRecord)
deriving DecidableEq, Repr

/-- The bare sync-in-progress marker written before the token comparison. -/
def syncNotDone : SyncStatus :=
  { done := false, numSynced := none, numTotal := none }

/-- The fresh record put for a script hash seen for the first time: empty
status and the bare not-done sync marker. -/
def freshSyncRec (sh ct : String) : SubscriptionRecord :=
  { scriptHash := sh, status := "", contractType := ct, sync := syncNotDone }

/-- Dexie-style lookup of the record with the given scriptHash key. -/
def findSub (tbl : List SubscriptionRecord) (sh : String) : Option SubscriptionRecord :=
  tbl.find? (fun r => r.scriptHash == sh)

/-- Dexie-style update of the sync field of the record keyed by sh;
records with other keys are untouched. -/
def updateSubSync (tbl : List SubscriptionRecord) (sh : String) (sy : SyncStatus) :
    List SubscriptionRecord :=
  tbl.map (fun r => if r.scriptHash == sh then { r with sync := sy } else r)

/-- The table after the unconditional writes at the top of buildUpdateTXOs:
sync is set to a bare not-done marker, and when no record exists yet a
fresh record with empty status is put. -/
def prepStatusTable (tbl : List SubscriptionRecord) (sh ct : String) : List SubscriptionRecord :=
  let tbl1 := updateSubSync tbl sh syncNotDone
  if (findSub tbl sh).isSome then tbl1
  else tbl1 ++ [freshSyncRec sh ct]

/-- The write log of the unconditional writes at the top of buildUpdateTXOs. -/
def prepWrites (tbl : List SubscriptionRecord) (sh ct : String) : List SubWrite :=
  let w1 : SubWrite := .update sh syncNotDone
  if (findSub tbl sh).isSome then [w1]
  else [w1, .put (freshSyncRec sh ct)]

/-- The token comparison of buildUpdateTXOs: the stored status of the (just
prepared) record equals the pushed token. A missing record never compares
equal (undefined === newStatus is false). -/
def statusUnchanged (tbl : List SubscriptionRecord) (sh ns ct : String) : Bool :=
  match findSub (prepStatusTable tbl sh ct) sh with
  | some r => r.status == ns
  | none => false

/-- The outpoint key the engine builds for membership tests: the template
string of txid followed directly by the decimal output index. -/
def outKey (txid : String) (vout : Nat) : String :=
  txid ++ Nat.repr vout

/-- Lookup of a cached txo by outpoint. -/
def findTxo (tbl : List TxORecord) (txid : String) (vout : Nat) : Option TxORecord :=
  tbl.find? (fun r => r.txid == txid && r.vout == vout)

/-- The stored height of a reported utxo: utxo.height coerced with the
Infinity fallback for a zero (unconfirmed) height. -/
def storedHeight (h : Nat) : Option Nat :=
  if h = 0 then none else some h

/-- The cached height differs from the reported height (Infinity differs
from every finite height). -/
def heightDiffers (stored : Option Nat) (reported : Nat) : Bool :=
  match stored with
  | none => true
  | some h => h != reported

/-- A spent diff entry: the id, value and script of a cached output that is
now spent. -/
structure SpentItem where
  id : Nat
  value : Int
  script : String
deriving DecidableEq, Repr

/-- The structured result buildUpdateTXOs returns to the calling layer. -/
structure UpdateResult where
  added : List TxORecord
  confs : List (Nat × ElectrumUtxo)
  spent : List SpentItem
  utxoCount : Option Nat
deriving DecidableEq, Repr

/-- The full outcome of one invocation: the new database state, the result,
the subscription writes performed and the number of network requests made. -/
structure UpdateOutcome where
  db : Db
  result : UpdateResult
  subWrites : List SubWrite
  networkCalls : Nat
deriving DecidableEq, Repr

/-- A concrete subscription record used by the witnesses: script hash sh1
with stored status tok. -/
def tokSub : SubscriptionRecord :=
  { scriptHash := "sh1", status := "tok", contractType := "rxd",
    sync := { done := true, numSynced := none, numTotal := none } }

/-- A concrete database holding only tokSub. -/
def tokDb : Db :=
  { subscriptionStatus := [tokSub], txo := [], broadcast := [] }

/-- The empty database. -/
def emptyDb : Db :=
  { subscriptionStatus := [], txo := [], broadcast := [] }

/-- A concrete cached output used by the spent-marking witness. -/
def wRec : TxORecord :=
  { id := some 1, txid := "aa", vout := 0, script := "s", value := 5,
    height := some 10, spent := 0, change := 0, contractType := "rxd" }

/-- A concrete database holding only wRec. -/
def wDb : Db :=
  { subscriptionStatus := [], txo := [wRec], broadcast := [] }

/-- A concrete reported utxo at a different outpoint than wRec. -/
def wUtxo : ElectrumUtxo :=
  { tx_hash := "bb", tx_pos := 1, value := 7, height := 3 }

/-- A non-required placeholder-script input holding 100000000000 units,
used by the fee-ceiling witness. -/
def bigInput : Utxo :=
  { txid := "aa", vout := 0, script := none, value := some 100000000000,
    required := false }

/-- A non-required placeholder-script input holding 100000 units, used by
the selection witnesses. -/
def smallInput : Utxo :=
  { txid := "aa", vout := 0, script := none, value := some 100000,
    required := false }

/-- A non-required placeholder-script input holding 10 units, used by the
insufficiency witness. -/
def tinyInput : Utxo :=
  { txid := "aa", vout := 0, script := none, value := some 10,
    required := false }

/-- A 50000-unit pubkeyhash-sized mandatory output used by the selection
witnesses. -/
def out50k : TxOutput :=
  { script := none, value := some 50000 }

/-- The reported utxos not present in the cache (to become added records). -/
def newUtxosOf (tbl : List TxORecord) (utxos : List ElectrumUtxo) : List ElectrumUtxo :=
  utxos.filter (fun u => (findTxo tbl u.tx_hash u.tx_pos).isNone)

/-- The reconfirmation map: cached id to reported utxo, for every reported
utxo already cached whose stored height differs from the reported one. The
code requires exist.id to be truthy before recording the entry. -/
def confsOf (tbl : List TxORecord) (utxos : List ElectrumUtxo) : List (Nat × ElectrumUtxo) :=
  utxos.filterMap (fun u =>
    match findTxo tbl u.tx_hash u.tx_pos with
    | some e =>
      match e.id with
      | some i => if heightDiffers e.height u.height then some (i, u) else none
      | none => none
    | none => none)

/-- The spent diff: every cached record of this contract type still marked
unspent whose outpoint key is absent from the keys of the just-fetched
unspent list (the id as number cast of the code defaults a missing id
to zero). -/
def spentOf (tbl : List TxORecord) (ct : String) (utxos : List ElectrumUtxo) : List SpentItem :=
  (tbl.filter (fun r => r.contractType == ct && r.spent == 0 &&
      !((utxos.map (fun u => outKey u.tx_hash u.tx_pos)).contains (outKey r.txid r.vout)))).map
    (fun r => { id := r.id.getD 0, value := r.value, script := r.script })

/-- The txo table after the spent-marking batch: each record whose id is
listed spent has its spent flag set to 1; no record is removed. -/
def applySpent (tbl : List TxORecord) (spent : List SpentItem) : List TxORecord :=
  tbl.map (fun r =>
    match r.id with
    | some i => if (spent.map SpentItem.id).contains i then { r with spent := 1 } else r
    | none => r)

/-- The txo table after the reconfirmation batch: each record whose id is
in the confs map gets the reported height (with the Infinity fallback). -/
def applyConfs (tbl : List TxORecord) (confs : List (Nat × ElectrumUtxo)) : List TxORecord :=
  tbl.map (fun r =>
    match r.id with
    | some i =>
      match confs.lookup i with
      | some u => { r with height := storedHeight u.height }
      | none => r
    | none => r)

/-- The added records: one freshly built txo per new reported utxo whose
script builder yields a script, flagged as the wallet's own change when the
funding transaction is in the broadcast table. -/
def addedOf (db : Db) (ct : String) (scriptBuilder : ElectrumUtxo → Option String)
    (utxos : List ElectrumUtxo) : List TxORecord :=
  (newUtxosOf db.txo utxos).filterMap (fun u =>
    (scriptBuilder u).map (fun script =>
      { id := none, txid := u.tx_hash, vout := u.tx_pos, script := script,
        value := u.value, height := storedHeight u.height, spent := 0,
        change := if db.broadcast.contains u.tx_hash then 1 else 0,
        contractType := ct }))

/-- buildUpdateTXOs from the sync engine. Given the database state, the
pushed (scriptHash, newStatus) event and the unspent list the server would
return, it performs the unconditional subscription writes, short-circuits
with the empty diff and zero network calls when the stored status already
equals the pushed token, and otherwise fetches (one network call), diffs
the reported unspent set against the cache by outpoint key, marks absent
previously-unspent records of this contract type spent (retaining them),
updates reconfirmed heights, and returns the structured diff. -/
def buildUpdateTXOs (ct : String) (scriptBuilder : ElectrumUtxo → Option String)
    (db : Db) (sh ns : String) (utxos : List ElectrumUtxo) : UpdateOutcome :=
  let subs1 := prepStatusTable db.subscriptionStatus sh ct
  let writes1 := prepWrites db.subscriptionStatus sh ct
  if statusUnchanged db.subscriptionStatus sh ns ct then
    { db := { db with subscriptionStatus := subs1 },
      result := { added := [], confs := [], spent := [], utxoCount := none },
      subWrites := writes1,
      networkCalls := 0 }
  else
    let subs2 := updateSubSync subs1 sh
      { done := false, numSynced := some 0, numTotal := some utxos.length }
    let confs := confsOf db.txo utxos
    let spent := spentOf db.txo ct utxos
    let txo1 := applySpent db.txo spent
    let added := addedOf db ct scriptBuilder utxos
    let txo2 := applyConfs txo1 confs
    { db := { db with subscriptionStatus := subs2, txo := txo2 },
      result := { added := added, confs := confs, spent := spent,
                  utxoCount := some utxos.length },
      subWrites := writes1 ++ [.update sh
        { done := false, numSynced := some 0, numTotal := some utxos.length }],
      networkCalls := 1 }

/-! ### Connection manager retry machine (worker) -/

def MAX_ATTEMPTS_BEFORE_PAUSE : Nat := 10

def FAILOVER_TIMEOUT : Nat := 8000

def PAUSE_DURATION : Nat := 30000

/-- The mutable worker state the retry machine reads and writes. -/
structure WorkerState where
  servers : List String
  serverNum : Nat
  connectionAttempts : Nat
  connectTimerArmed : Bool
  reconnectTimerArmed : Bool
deriving DecidableEq, Repr

/-- The action tryNextServer takes after advancing: either schedule the
fixed cool-down pause (arming the reconnect timer, no immediate retry) or
immediately retry worker.connect at the advanced server index. -/
inductive FailoverAction
  | pause
  | retry (serverIdx : Nat)
deriving DecidableEq, Repr

/-- tryNextServer from the worker: increment the attempt counter, advance
the server index with wrap-around, and either pause (once the counter has
reached the fixed MAX_ATTEMPTS_BEFORE_PAUSE) or retry immediately. -/
def tryNextServer (s : WorkerState) : WorkerState × FailoverAction :=
  let attempts := s.connectionAttempts + 1
  let totalServers := max 1 s.servers.length
  let idx := (s.serverNum + 1) % totalServers
  if MAX_ATTEMPTS_BEFORE_PAUSE ≤ attempts then
    ({ s with connectionAttempts := attempts, serverNum := idx, reconnectTimerArmed := true },
     .pause)
  else
    ({ s with connectionAttempts := attempts, serverNum := idx }, .retry idx)

/-- The pause timer callback: reset the attempt counter and reconnect; the
returned index is the current server position worker.connect dials. -/
def pauseTimerFires (s : WorkerState) : WorkerState × Nat :=
  ({ s with connectionAttempts := 0, reconnectTimerArmed := false }, s.serverNum)

/-- The connected event handler: clear all pending timers and reset the
attempt counter to zero. -/
def onConnected (s : WorkerState) : WorkerState :=
  { s with connectionAttempts := 0, connectTimerArmed := false, reconnectTimerArmed := false }

/-- The state after n consecutive failed failovers (n applications of
tryNextServer). -/
def failoverState (s : WorkerState) : Nat → WorkerState
  | 0 => s
  | n + 1 => (tryNextServer (failoverState s n)).1

/-- A fresh worker state over the given endpoint list. -/
def freshWorker (servers : List String) : WorkerState :=
  { servers := servers, serverNum := 0, connectionAttempts := 0,
    connectTimerArmed := false, reconnectTimerArmed := false }

/-! ### Derived quantities used to state the loop properties -/

/-- Running NaN-aware input-value total after drawing the listed inputs. -/
def runValue (init : Option Int) (l : List Utxo) : Option Int :=
  l.foldl (fun a u => nAdd a (uintOrNaN u.value)) init

/-- Estimated byte size of one selectable input (defaulting the impossible
invalid-varint case to zero; the loop theorems assume sizes are defined). -/
def ibytes (u : Utxo) : Nat :=
  (inputBytes (toTxInput u)).getD 0

/-- Total estimated byte size of a list of selectable inputs. -/
def sumIBytes (l : List Utxo) : Nat :=
  (l.map ibytes).sum

/-! ### Helper lemmas -/

theorem nAdd_none_left (b : Option Int) : nAdd none b = none := rfl

theorem nAdd_some_some (x y : Int) : nAdd (some x) (some y) = some (x + y) := rfl

theorem nGE_true_iff (a b : Option Int) :
    nGE a b = true ↔ ∃ x y, a = some x ∧ b = some y ∧ y ≤ x := by
  cases a <;> cases b <;> simp [nGE]

theorem uintOrNaN_some_iff (v : Option Int) (w : Int) :
    uintOrNaN v = some w ↔ v = some w ∧ 0 ≤ w := by
  cases v with
  | none => simp [uintOrNaN]
  | some x =>
    simp only [uintOrNaN, Option.some_bind]
    by_cases hx : x < 0
    · rw [if_pos hx]
      constructor
      · intro h
        exact Option.noConfusion h
      · rintro ⟨h1, h2⟩
        injection h1 with h
        exact absurd hx (by omega)
    · rw [if_neg hx]
      constructor
      · intro h
        injection h with h
        exact ⟨by rw [h], by omega⟩
      · rintro ⟨h1, _⟩
        exact h1

theorem foldl_nAdd_none (l : List (Option Int)) :
    l.foldl (fun a v => nAdd a (uintOrNaN v)) none = none := by
  induction l with
  | nil => rfl
  | cons v rest ih => simpa [nAdd] using ih

theorem foldl_nAdd_isSome (l : List (Option Int)) (acc : Option Int)
    (h : (l.foldl (fun a v => nAdd a (uintOrNaN v)) acc).isSome) :
    ∀ v ∈ l, ∃ w, v = some w ∧ 0 ≤ w := by
  induction l generalizing acc with
  | nil => simp
  | cons v rest ih =>
    intro x hx
    simp only [List.foldl_cons] at h
    have hstep : (nAdd acc (uintOrNaN v)).isSome := by
      by_contra hno
      rw [Option.not_isSome_iff_eq_none] at hno
      rw [hno, foldl_nAdd_none] at h
      simp at h
    rcases List.mem_cons.mp hx with rfl | hx
    · rcases Option.isSome_iff_exists.mp hstep with ⟨z, hz⟩
      cases acc with
      | none => simp [nAdd] at hz
      | some a =>
        cases hv : uintOrNaN x with
        | none => rw [hv] at hz; simp [nAdd] at hz
        | some w => exact ⟨w, (uintOrNaN_some_iff x w).mp hv⟩
    · exact ih _ h x hx

theorem sumOrNaN_some_forall (vs : List (Option Int)) (y : Int)
    (h : sumOrNaN vs = some y) : ∀ v ∈ vs, ∃ w, v = some w ∧ 0 ≤ w :=
  foldl_nAdd_isSome vs (some 0) (by rw [sumOrNaN] at h; simp [h])

theorem sumOrNaN_append (a b : List (Option Int)) :
    sumOrNaN (a ++ b) = b.foldl (fun x v => nAdd x (uintOrNaN v)) (sumOrNaN a) := by
  simp [sumOrNaN, List.foldl_append]

theorem sumOrNaN_concat (a : List (Option Int)) (v : Option Int) :
    sumOrNaN (a ++ [v]) = nAdd (sumOrNaN a) (uintOrNaN v) := by
  simp [sumOrNaN_append]

theorem runValue_nil (i : Option Int) : runValue i [] = i := rfl

theorem runValue_cons (i : Option Int) (u : Utxo) (l : List Utxo) :
    runValue i (u :: l) = runValue (nAdd i (uintOrNaN u.value)) l := rfl

theorem runValue_eq_sumOrNaN (req : List Utxo) (c : List Utxo) :
    runValue (sumOrNaN (req.map Utxo.value)) c = sumOrNaN ((req ++ c).map Utxo.value) := by
  rw [List.map_append, sumOrNaN_append, runValue, List.foldl_map]

theorem sumIBytes_nil : sumIBytes [] = 0 := rfl

theorem sumIBytes_cons (u : Utxo) (l : List Utxo) :
    sumIBytes (u :: l) = ibytes u + sumIBytes l := by
  simp [sumIBytes]

theorem foldl_bind_isSome {α : Type} (g : α → Option Nat) (l : List α) :
    ∀ acc : Option Nat, acc.isSome → (∀ x ∈ l, (g x).isSome) →
      (l.foldl (fun a i => a.bind (fun b => (g i).map (fun x => b + x))) acc).isSome := by
  induction l with
  | nil => intro acc hacc _; simpa using hacc
  | cons x rest ih =>
    intro acc hacc hall
    simp only [List.foldl_cons]
    apply ih
    · rcases Option.isSome_iff_exists.mp hacc with ⟨a, ha⟩
      rcases Option.isSome_iff_exists.mp (hall x (by simp)) with ⟨gx, hgx⟩
      simp [ha, hgx]
    · intro z hz
      exact hall z (by simp [hz])

theorem sumInputBytes_isSome (inputs : List TxInput)
    (h : ∀ i ∈ inputs, (inputBytes i).isSome) : (sumInputBytes inputs).isSome :=
  foldl_bind_isSome inputBytes inputs (some 0) (by simp) h

theorem sumOutputBytes_isSome (outputs : List TxOutput)
    (h : ∀ o ∈ outputs, (outputBytes o).isSome) : (sumOutputBytes outputs).isSome :=
  foldl_bind_isSome outputBytes outputs (some 0) (by simp) h

/-! ### Claim C3: varIntSize tiers -/

/-- C3 counterexample: the claim says varIntSize is 9 for every n above
2^32−1, but the code raises the Invalid VarInt error (modelled as none) for
n above 2^64−1. -/
theorem claim3_counterexample :
    varIntSize 18446744073709551616 = none ∧
    varIntSize 18446744073709551616 ≠ some 9 := by
  constructor
  · rfl
  · intro h
    exact Option.noConfusion h

/-- C3 amended: varIntSize(n) = 1 for n < 253, 3 for 253 ≤ n ≤ 65535, 5 for
65535 < n ≤ 2^32−1, 9 for 2^32−1 < n ≤ 2^64−1, and the Invalid VarInt error
above 2^64−1; the boundary values 252, 253, 65535 and 65536 are exactly as
the claim lists them. -/
theorem varIntSize_tiers (n : Nat) :
    (n < 253 → varIntSize n = some 1) ∧
    (253 ≤ n → n ≤ 65535 → varIntSize n = some 3) ∧
    (65535 < n → n ≤ 2 ^ 32 - 1 → varIntSize n = some 5) ∧
    (2 ^ 32 - 1 < n → n ≤ 2 ^ 64 - 1 → varIntSize n = some 9) ∧
    (2 ^ 64 - 1 < n → varIntSize n = none) ∧
    varIntSize 252 = some 1 ∧ varIntSize 253 = some 3 ∧
    varIntSize 65535 = some 3 ∧ varIntSize 65536 = some 5 := by
  have e32 : (2 : Nat) ^ 32 - 1 = 4294967295 := by norm_num
  have e64 : (2 : Nat) ^ 64 - 1 = 18446744073709551615 := by norm_num
  rw [e32, e64]
  refine ⟨?_, ?_, ?_, ?_, ?_, rfl, rfl, rfl, rfl⟩ <;>
    (intros; unfold varIntSize; split_ifs <;> first | rfl | omega)

/-- C3 witness: the amended tier theorem applied at the concrete input
70000, which the code sizes with a 5-byte prefix. -/
theorem varIntSize_tiers_witness : varIntSize 70000 = some 5 :=
  (varIntSize_tiers 70000).2.2.1 (by norm_num) (by norm_num)

/-! ### Claim C4: script length measured in bytes -/

/-- C4: for a script supplied as a hex string of 2n characters both
estimators measure the script as n bytes: an input is 40 + varIntSize(n) + n
(with the 107-byte default signature placeholder when no script is given,
sizing to 148) and an output is 8 + varIntSize(n) + n. -/
theorem estimator_measures_bytes (s t : String) (m n : Nat) (vi vo : Option Int)
    (hs : s.length = 2 * m) (ht : t.length = 2 * n) :
    inputBytes { script := some s, value := vi } = (varIntSize m).map (fun k => 40 + k + m) ∧
    outputBytes { script := some t, value := vo } = (varIntSize n).map (fun k => 8 + k + n) ∧
    inputBytes { script := none, value := vi } = some (40 + 1 + 107) := by
  have hm : s.length / 2 = m := by omega
  have hn : t.length / 2 = n := by omega
  refine ⟨?_, ?_, rfl⟩
  · simp only [inputBytes, inputScriptLen, hm]
    rfl
  · simp only [outputBytes, outputScriptLen, hn]
    rfl

/-- C4 witness: the byte-measure theorem applied to a 14-character hex
script (7 bytes) for the input and a 6-character hex script (3 bytes) for
the output. -/
theorem estimator_measures_bytes_witness :
    inputBytes { script := some "00112233445566", value := some 0 } =
      (varIntSize 7).map (fun k => 40 + k + 7) ∧
    outputBytes { script := some "aabbcc", value := some 0 } =
      (varIntSize 3).map (fun k => 8 + k + 3) ∧
    inputBytes { script := none, value := some 0 } = some (40 + 1 + 107) :=
  estimator_measures_bytes "00112233445566" "aabbcc" 7 3 (some 0) (some 0) rfl rfl

/-! ### Claim C9: invalid values fail with InvalidAmount -/

/-- C9: when some input or output value is not a finite non-negative number
(uintOrNaN yields NaN), transactionBytes fails with the InvalidAmount
condition rather than producing a NaN-propagated size; when every value is
valid the InvalidAmount condition is never raised. The first part assumes
every per-element size is defined, since a (physically impossible)
oversized script would raise Invalid VarInt during the summation, before
the NaN guard runs. -/
theorem transactionBytes_invalid_amount (inputs : List TxInput) (outputs : List TxOutput)
    (hin : ∀ i ∈ inputs, (inputBytes i).isSome)
    (hout : ∀ o ∈ outputs, (outputBytes o).isSome) :
    (((∃ i ∈ inputs, uintOrNaN i.value = none) ∨ (∃ o ∈ outputs, uintOrNaN o.value = none)) →
      transactionBytes inputs outputs = .error .invalidAmount) ∧
    ((∀ i ∈ inputs, (uintOrNaN i.value).isSome) → (∀ o ∈ outputs, (uintOrNaN o.value).isSome) →
      transactionBytes inputs outputs ≠ .error .invalidAmount) := by
  rcases Option.isSome_iff_exists.mp (sumInputBytes_isSome inputs hin) with ⟨inS, hinS⟩
  rcases Option.isSome_iff_exists.mp (sumOutputBytes_isSome outputs hout) with ⟨outS, houtS⟩
  constructor
  · intro hbad
    have hv : valuesOk inputs outputs = false := by
      rcases hbad with ⟨i, hi, hnone⟩ | ⟨o, ho, hnone⟩ <;>
        simp only [valuesOk, Bool.and_eq_false_iff, List.all_eq_false] <;>
        [left; right] <;> exact ⟨_, by assumption, by simp [hnone]⟩
    unfold transactionBytes
    rw [hinS, houtS, hv]
    rfl
  · intro h1 h2
    have hv : valuesOk inputs outputs = true := by
      simp only [valuesOk, Bool.and_eq_true, List.all_eq_true]
      exact ⟨fun i hi => h1 i hi, fun o ho => h2 o ho⟩
    unfold transactionBytes
    rw [hinS, houtS, hv]
    cases varIntSize inputs.length <;> cases varIntSize outputs.length <;> simp

/-- C9 witness: a one-input list with a negative (invalid) value fails with
InvalidAmount, and the same list with the value corrected does not. -/
theorem transactionBytes_invalid_amount_witness :
    transactionBytes [{ script := none, value := some (-5) }] [] = .error .invalidAmount ∧
    transactionBytes [{ script := none, value := some 5 }] [] ≠ .error .invalidAmount := by
  constructor
  · exact (transactionBytes_invalid_amount [{ script := none, value := some (-5) }] []
      (by decide) (by simp)).1
      (Or.inl ⟨{ script := none, value := some (-5) }, by simp, by decide⟩)
  · exact (transactionBytes_invalid_amount [{ script := none, value := some 5 }] []
      (by decide) (by simp)).2 (by decide) (by simp)

/-! ### Claim C8: retry machine pause behaviour -/

theorem failoverState_servers (s : WorkerState) (n : Nat) :
    (failoverState s n).servers = s.servers := by
  induction n with
  | zero => rfl
  | succ n ih =>
    simp only [failoverState, tryNextServer]
    split <;> simpa using ih

theorem failoverState_attempts (s : WorkerState) (n : Nat) :
    (failoverState s n).connectionAttempts = s.connectionAttempts + n := by
  induction n with
  | zero => rfl
  | succ n ih =>
    simp only [failoverState, tryNextServer]
    split <;> simp [ih] <;> omega

/-- C8 counterexample: with a three-endpoint list and a fresh attempt
counter, listLength × 2 = 6, yet the sixth consecutive failed failover
produces an immediate retry (of endpoint 0), not a pause, because the code
pauses only at the fixed constant MAX_ATTEMPTS_BEFORE_PAUSE = 10. -/
theorem claim8_counterexample :
    (failoverState (freshWorker ["a", "b", "c"]) 5).connectionAttempts = 5 ∧
    (tryNextServer (failoverState (freshWorker ["a", "b", "c"]) 5)).2 = .retry 0 ∧
    (tryNextServer (failoverState (freshWorker ["a", "b", "c"]) 5)).2 ≠ .pause := by
  refine ⟨by decide, by decide, by decide⟩

/-- C8 amended: starting from a zero attempt counter, each of the first
nine consecutive failed failovers retries the next endpoint immediately,
and the tenth (the fixed MAX_ATTEMPTS_BEFORE_PAUSE = 10, which equals
listLength × 2 exactly when the endpoint list has five entries) schedules
the cool-down pause instead; when the pause timer fires the attempt
counter is reset and connection resumes from the current endpoint
position; and a Connected event clears the pending timers and resets the
attempt counter to zero. -/
theorem failover_pause_after_ten (s0 : WorkerState) (h0 : s0.connectionAttempts = 0) (j : Nat) :
    ((failoverState s0 j).connectionAttempts = j) ∧
    (j + 1 < MAX_ATTEMPTS_BEFORE_PAUSE →
      (tryNextServer (failoverState s0 j)).2 =
        .retry (((failoverState s0 j).serverNum + 1) % max 1 s0.servers.length)) ∧
    (MAX_ATTEMPTS_BEFORE_PAUSE ≤ j + 1 →
      (tryNextServer (failoverState s0 j)).2 = .pause ∧
      (tryNextServer (failoverState s0 j)).1.reconnectTimerArmed = true) ∧
    (s0.servers.length = 5 → MAX_ATTEMPTS_BEFORE_PAUSE = 2 * s0.servers.length) ∧
    ((pauseTimerFires (tryNextServer (failoverState s0 j)).1).1.connectionAttempts = 0 ∧
      (pauseTimerFires (tryNextServer (failoverState s0 j)).1).2 =
        (tryNextServer (failoverState s0 j)).1.serverNum) ∧
    (∀ s : WorkerState, (onConnected s).connectionAttempts = 0 ∧
      (onConnected s).connectTimerArmed = false ∧
      (onConnected s).reconnectTimerArmed = false) := by
  have hatt : (failoverState s0 j).connectionAttempts = j := by
    rw [failoverState_attempts, h0, Nat.zero_add]
  have hsrv : (failoverState s0 j).servers = s0.servers := failoverState_servers s0 j
  refine ⟨hatt, ?_, ?_, ?_, ⟨rfl, rfl⟩, fun s => ⟨rfl, rfl, rfl⟩⟩
  · intro hj
    simp only [tryNextServer, hatt, hsrv]
    rw [if_neg (by omega)]
  · intro hj
    simp only [tryNextServer, hatt, hsrv]
    rw [if_pos (by omega)]
    exact ⟨rfl, rfl⟩
  · intro h5
    rw [h5]
    rfl

/-- C8 witness: with a five-endpoint list the tenth consecutive failed
failover pauses and arms the cool-down timer. -/
theorem failover_pause_after_ten_witness :
    (tryNextServer (failoverState (freshWorker ["a", "b", "c", "d", "e"]) 9)).2 = .pause :=
  ((failover_pause_after_ten (freshWorker ["a", "b", "c", "d", "e"]) rfl 9).2.2.1 (by decide)).1

/-! ### Claims C2 and C10: subscription status handling -/

theorem findSub_updateSubSync (tbl : List SubscriptionRecord) (sh : String) (sy : SyncStatus) :
    findSub (updateSubSync tbl sh sy) sh =
      (findSub tbl sh).map (fun r => { r with sync := sy }) := by
  induction tbl with
  | nil => rfl
  | cons r rest ih =>
    by_cases h : r.scriptHash = sh
    · simp [findSub, updateSubSync, List.find?_cons, h]
    · have hb : (r.scriptHash == sh) = false := by simp [h]
      simp only [updateSubSync, List.map_cons, hb, if_neg, Bool.false_eq_true, not_false_iff,
        reduceIte]
      simp only [findSub, List.find?_cons, hb]
      exact ih

theorem findSub_prep (tbl : List SubscriptionRecord) (sh ct : String) :
    findSub (prepStatusTable tbl sh ct) sh =
      match findSub tbl sh with
      | some r => some { r with sync := syncNotDone }
      | none => some (freshSyncRec sh ct) := by
  unfold prepStatusTable
  cases h : findSub tbl sh with
  | some r =>
    rw [if_pos (by simp [h])]
    rw [findSub_updateSubSync, h]
    rfl
  | none =>
    rw [if_neg (by simp [h])]
    unfold findSub at *
    rw [List.find?_append]
    have h1 : (updateSubSync tbl sh syncNotDone).find?
        (fun r => r.scriptHash == sh) = none := by
      have := findSub_updateSubSync tbl sh syncNotDone
      unfold findSub at this
      rw [this, h]
      rfl
    rw [h1]
    simp [List.find?, freshSyncRec]

/-- C2: a pushed status event whose token equals the stored status for the
script hash makes zero network calls (no listunspent request) and returns
the empty diff of no added outputs, no reconfirmations and no spent
outputs. -/
theorem repeated_status_noop (ct : String) (sb : ElectrumUtxo → Option String)
    (db : Db) (sh ns : String) (utxos : List ElectrumUtxo) (r : SubscriptionRecord)
    (hr : findSub db.subscriptionStatus sh = some r) (hst : r.status = ns) :
    (buildUpdateTXOs ct sb db sh ns utxos).networkCalls = 0 ∧
    (buildUpdateTXOs ct sb db sh ns utxos).result =
      { added := [], confs := [], spent := [], utxoCount := none } := by
  have hsc : statusUnchanged db.subscriptionStatus sh ns ct = true := by
    unfold statusUnchanged
    rw [findSub_prep, hr]
    simp [hst]
  unfold buildUpdateTXOs
  rw [if_pos hsc]
  exact ⟨rfl, rfl⟩

/-- C2 witness: a concrete database whose stored status for the script hash
already equals the pushed token short-circuits with the empty diff. -/
theorem repeated_status_noop_witness :
    (buildUpdateTXOs "rxd" (fun _ => none) tokDb "sh1" "tok" []).networkCalls = 0 ∧
    (buildUpdateTXOs "rxd" (fun _ => none) tokDb "sh1" "tok" []).result =
      { added := [], confs := [], spent := [], utxoCount := none } :=
  repeated_status_noop "rxd" (fun _ => none) tokDb "sh1" "tok" [] tokSub (by decide) rfl

/-- C10: on every invocation, including the repeated-status short-circuit
path, the subscription record is written before the token comparison: the
first write issued is the update setting sync to a bare not-done marker, a
fresh record with empty status is put when none exists, and afterwards the
table always holds a record for the script hash whose sync is not done
(with empty status when the record is fresh). -/
theorem sync_marked_on_every_path (ct : String) (sb : ElectrumUtxo → Option String)
    (db : Db) (sh ns : String) (utxos : List ElectrumUtxo) :
    (buildUpdateTXOs ct sb db sh ns utxos).subWrites.head? =
      some (.update sh syncNotDone) ∧
    (findSub db.subscriptionStatus sh = none →
      SubWrite.put (freshSyncRec sh ct) ∈
        (buildUpdateTXOs ct sb db sh ns utxos).subWrites) ∧
    (∃ r, findSub (buildUpdateTXOs ct sb db sh ns utxos).db.subscriptionStatus sh = some r ∧
      r.sync.done = false ∧ (findSub db.subscriptionStatus sh = none → r.status = "")) := by
  have hw : (prepWrites db.subscriptionStatus sh ct).head? =
      some (.update sh syncNotDone) := by
    unfold prepWrites
    split <;> rfl
  have hput : findSub db.subscriptionStatus sh = none →
      SubWrite.put (freshSyncRec sh ct) ∈
        prepWrites db.subscriptionStatus sh ct := by
    intro hnone
    unfold prepWrites
    rw [if_neg (by simp [hnone])]
    simp
  unfold buildUpdateTXOs
  split
  · refine ⟨hw, hput, ?_⟩
    rw [findSub_prep]
    cases h : findSub db.subscriptionStatus sh with
    | some r => exact ⟨_, rfl, rfl, fun hc => absurd hc (by simp)⟩
    | none => exact ⟨_, rfl, rfl, fun _ => rfl⟩
  · constructor
    · simp only [List.head?_append]
      rw [hw]
      rfl
    constructor
    · intro hnone
      simp only [List.mem_append]
      exact Or.inl (hput hnone)
    · rw [findSub_updateSubSync, findSub_prep]
      cases h : findSub db.subscriptionStatus sh with
      | some r => exact ⟨_, rfl, rfl, fun hc => absurd hc (by simp)⟩
      | none => exact ⟨_, rfl, rfl, fun _ => rfl⟩

/-- C10 witness: on a database with no record for the script hash, the
fresh record with empty status is put (second write) even though the event
is then processed normally. -/
theorem sync_marked_on_every_path_witness :
    SubWrite.put (freshSyncRec "sh9" "nft") ∈
      (buildUpdateTXOs "nft" (fun _ => none) emptyDb "sh9" "tok" []).subWrites :=
  (sync_marked_on_every_path "nft" (fun _ => none) emptyDb "sh9" "tok" []).2.1 rfl

/-! ### Claim C1: spent marking by outpoint set membership -/

theorem lookup_eq_none_of_keys {β : Type} (l : List (Nat × β)) (k : Nat)
    (h : ∀ p ∈ l, p.1 ≠ k) : l.lookup k = none := by
  induction l with
  | nil => rfl
  | cons p rest ih =>
    have hb : (k == p.1) = false := by
      simp only [beq_eq_false_iff_ne, ne_eq]
      exact fun hc => h p (by simp) hc.symm
    simp only [List.lookup, hb]
    exact ih (fun q hq => h q (by simp [hq]))

theorem txo_id_inj (tbl : List TxORecord) (hnodup : (tbl.map TxORecord.id).Nodup)
    (a b : TxORecord) (ha : a ∈ tbl) (hb : b ∈ tbl) (hab : a.id = b.id) : a = b :=
  List.inj_on_of_nodup_map hnodup ha hb hab

/-- C1: on a refresh that actually fetches, every cached record of this
contract type still flagged unspent whose outpoint (txid, vout) is not a
member of the outpoint set of the just-fetched unspent list has its spent
flag set to 1 in the resulting table, the record itself being retained (the
table keeps its length, nothing is deleted), and the record is reported in
the spent diff. Membership is tested on the full outpoint; the hinj
hypothesis states that the code's concatenated outpoint key collides with
the record's key only on the same outpoint, which holds for the fixed-width
64-character transaction ids of the chain. The hnodup hypothesis is the
primary-key invariant of the store (ids are unique). -/
theorem spent_marking (ct : String) (sb : ElectrumUtxo → Option String) (db : Db)
    (sh ns : String) (utxos : List ElectrumUtxo) (t : TxORecord) (i : Nat)
    (hfetch : statusUnchanged db.subscriptionStatus sh ns ct = false)
    (hnodup : (db.txo.map TxORecord.id).Nodup)
    (ht : t ∈ db.txo) (hid : t.id = some i)
    (hct : t.contractType = ct) (hsp : t.spent = 0)
    (hmem : ∀ u ∈ utxos, ¬(u.tx_hash = t.txid ∧ u.tx_pos = t.vout))
    (hinj : ∀ u ∈ utxos, outKey u.tx_hash u.tx_pos = outKey t.txid t.vout →
      u.tx_hash = t.txid ∧ u.tx_pos = t.vout) :
    { t with spent := 1 } ∈ (buildUpdateTXOs ct sb db sh ns utxos).db.txo ∧
    (buildUpdateTXOs ct sb db sh ns utxos).db.txo.length = db.txo.length ∧
    ({ id := i, value := t.value, script := t.script } : SpentItem) ∈
      (buildUpdateTXOs ct sb db sh ns utxos).result.spent := by
  have hnm : ∀ x ∈ utxos, ¬outKey x.tx_hash x.tx_pos = outKey t.txid t.vout := by
    intro x hx hc
    exact hmem x hx (hinj x hx hc)
  have htfilter : t ∈ db.txo.filter (fun r => r.contractType == ct && r.spent == 0 &&
      !((utxos.map (fun u => outKey u.tx_hash u.tx_pos)).contains (outKey r.txid r.vout))) :=
    List.mem_filter.mpr ⟨ht, by simpa [hct, hsp] using hnm⟩
  have hspentmem : ({ id := i, value := t.value, script := t.script } : SpentItem) ∈
      spentOf db.txo ct utxos := by
    unfold spentOf
    exact List.mem_map.mpr ⟨t, htfilter, by simp [hid]⟩
  have hidmem : i ∈ (spentOf db.txo ct utxos).map SpentItem.id :=
    List.mem_map.mpr ⟨_, hspentmem, rfl⟩
  have hcont : ((spentOf db.txo ct utxos).map SpentItem.id).contains i = true := by
    simpa using hidmem
  have hmarked : ({ t with spent := 1 } : TxORecord) ∈
      applySpent db.txo (spentOf db.txo ct utxos) := by
    unfold applySpent
    refine List.mem_map.mpr ⟨t, ht, ?_⟩
    simp only [hid, hcont, if_true]
  have hnoconf : (confsOf db.txo utxos).lookup i = none := by
    apply lookup_eq_none_of_keys
    intro p hp
    rcases List.mem_filterMap.mp hp with ⟨u, hu, hf⟩
    cases hfind : findTxo db.txo u.tx_hash u.tx_pos with
    | none =>
      rw [hfind] at hf
      simp at hf
    | some e =>
      rw [hfind] at hf
      dsimp only at hf
      cases heid : e.id with
      | none =>
        rw [heid] at hf
        simp at hf
      | some j =>
        rw [heid] at hf
        dsimp only at hf
        by_cases hh : heightDiffers e.height u.height = true
        · rw [if_pos hh] at hf
          injection hf with hf
          intro hpk
          rw [← hf] at hpk
          dsimp only at hpk
          unfold findTxo at hfind
          have he : e ∈ db.txo := List.mem_of_find?_eq_some hfind
          have hpred := List.find?_some hfind
          simp only [Bool.and_eq_true, beq_iff_eq] at hpred
          have het : e = t := txo_id_inj db.txo hnodup e t he ht (by rw [heid, hid, hpk])
          rw [het] at hpred
          exact hmem u hu ⟨hpred.1.symm, hpred.2.symm⟩
        · rw [if_neg hh] at hf
          exact absurd hf (by simp)
  have hsurv : ({ t with spent := 1 } : TxORecord) ∈
      applyConfs (applySpent db.txo (spentOf db.txo ct utxos)) (confsOf db.txo utxos) := by
    unfold applyConfs
    refine List.mem_map.mpr ⟨{ t with spent := 1 }, hmarked, ?_⟩
    simp only [hid, hnoconf]
  refine ⟨?_, ?_, ?_⟩
  · simp only [buildUpdateTXOs, hfetch, Bool.false_eq_true, if_false]
    exact hsurv
  · simp only [buildUpdateTXOs, hfetch, Bool.false_eq_true, if_false]
    simp [applyConfs, applySpent]
  · simp only [buildUpdateTXOs, hfetch, Bool.false_eq_true, if_false]
    exact hspentmem

/-- C1 witness: a refresh of wDb against an unspent list that no longer
contains wRec's outpoint marks wRec spent, keeps the table length, and
reports it in the spent diff. -/
theorem spent_marking_witness :
    ({ wRec with spent := 1 } : TxORecord) ∈
      (buildUpdateTXOs "rxd" (fun _ => none) wDb "shx" "tok" [wUtxo]).db.txo ∧
    (buildUpdateTXOs "rxd" (fun _ => none) wDb "shx" "tok" [wUtxo]).db.txo.length =
      wDb.txo.length ∧
    ({ id := 1, value := wRec.value, script := wRec.script } : SpentItem) ∈
      (buildUpdateTXOs "rxd" (fun _ => none) wDb "shx" "tok" [wUtxo]).result.spent :=
  spent_marking "rxd" (fun _ => none) wDb "shx" "tok" [wUtxo] wRec 1
    (by decide) (by decide) (by decide) rfl rfl rfl (by decide) (by decide)

/-! ### Claim C7: emergency fee ceiling -/

/-- C7: when the computed final fee exceeds the emergency ceiling of
10000000000, finalize fails closed with the Too large fee error and in no
case returns a broadcastable success whose fee exceeds the ceiling; when
the computed fee is at or below the ceiling the check passes silently and
the selection succeeds with exactly that fee. -/
theorem fee_ceiling (inputs : List Utxo) (outputs : List TxOutput) (feeRate : Int)
    (changeScript : Option String) (B cB : Nat) (f : Int)
    (hB : transactionBytes (inputs.map toTxInput) outputs = .ok B)
    (hcB : outputBytes (changeOutput changeScript) = some cB)
    (hf : finalizeFee inputs outputs feeRate changeScript B cB = some f) :
    (10000000000 < f → finalize inputs outputs feeRate changeScript = .error .feeTooLarge) ∧
    (f ≤ 10000000000 → finalize inputs outputs feeRate changeScript =
      .ok (.success inputs (withChange inputs outputs feeRate changeScript B cB) f)) ∧
    (∀ ins outs g, finalize inputs outputs feeRate changeScript = .ok (.success ins outs g) →
      g ≤ 10000000000) := by
  unfold finalize
  rw [hB]
  dsimp only
  rw [hcB]
  dsimp only
  rw [hf]
  dsimp only
  refine ⟨fun h => ?_, fun h => ?_, fun ins outs g hg => ?_⟩
  · rw [if_pos h]
  · rw [if_neg (by omega)]
  · by_cases hcap : 10000000000 < f
    · rw [if_pos hcap] at hg
      exact absurd hg (by simp)
    · rw [if_neg hcap] at hg
      injection hg with hg
      injection hg with h1 h2 h3
      omega

/-- C7 witness: at fee rate 100000000 a single 148-byte placeholder input
worth 100000000000 with no mandatory outputs yields a computed fee of
19200000000, above the ceiling, and finalize fails closed. -/
theorem fee_ceiling_witness :
    finalize [bigInput] [] 100000000 none = .error .feeTooLarge :=
  (fee_ceiling [bigInput] [] 100000000 none 158 34 19200000000 rfl rfl rfl).1 (by norm_num)

/-! ### Claim C5: the accumulation loop -/

theorem accumGo_unfold (fr : Int) (oa : Option Int) (l : List Utxo) (i : Option Int) (b : Nat) :
    accumGo fr oa l i b =
      if fundedAt fr oa i b then .ok ([], i, b)
      else
        match l with
        | [] => .ok ([], i, b)
        | utxo :: rest =>
          match inputBytes (toTxInput utxo) with
          | none => .error .invalidVarInt
          | some ub =>
            (accumGo fr oa rest (nAdd i (uintOrNaN utxo.value)) (b + ub)).map
              (fun r => (utxo :: r.1, r.2)) := by
  cases l <;> rfl

theorem accumGo_spec (feeRate : Int) (outAccum : Option Int) (l : List Utxo) :
    ∀ (inAccum : Option Int) (bytes : Nat),
      (∀ u ∈ l, (inputBytes (toTxInput u)).isSome) →
      ∃ k, k ≤ l.length ∧
        accumGo feeRate outAccum l inAccum bytes =
          .ok (l.take k, runValue inAccum (l.take k), bytes + sumIBytes (l.take k)) ∧
        (∀ j, j < k → fundedAt feeRate outAccum (runValue inAccum (l.take j))
          (bytes + sumIBytes (l.take j)) = false) ∧
        (fundedAt feeRate outAccum (runValue inAccum (l.take k))
          (bytes + sumIBytes (l.take k)) = true ∨ k = l.length) := by
  induction l with
  | nil =>
    intro inAccum bytes _
    refine ⟨0, Nat.le_refl 0, ?_, by omega, Or.inr rfl⟩
    rw [accumGo_unfold]
    split <;> simp [runValue_nil, sumIBytes_nil]
  | cons u rest ih =>
    intro inAccum bytes hsz
    by_cases hf : fundedAt feeRate outAccum inAccum bytes = true
    · refine ⟨0, Nat.zero_le _, ?_, by omega, Or.inl ?_⟩
      · rw [accumGo_unfold, if_pos hf]
        simp [runValue_nil, sumIBytes_nil]
      · simpa [runValue_nil, sumIBytes_nil] using hf
    · rcases Option.isSome_iff_exists.mp (hsz u (by simp)) with ⟨ub, hub⟩
      rcases ih (nAdd inAccum (uintOrNaN u.value)) (bytes + ub)
          (fun x hx => hsz x (by simp [hx])) with ⟨k, hk, heq, hmin, hstop⟩
      refine ⟨k + 1, by simpa using hk, ?_, ?_, ?_⟩
      · rw [accumGo_unfold, if_neg hf]
        dsimp only
        rw [hub]
        dsimp only
        rw [heq]
        simp only [Except.map, List.take_succ_cons, runValue_cons, sumIBytes_cons]
        have harr : bytes + (ibytes u + sumIBytes (rest.take k)) = bytes + ub + sumIBytes (rest.take k) := by
          have : ibytes u = ub := by
            unfold ibytes
            rw [hub]
            rfl
          omega
        rw [harr]
      · intro j hj
        cases j with
        | zero => simpa [runValue_nil, sumIBytes_nil] using hf
        | succ j =>
          have hj2 : j < k := by omega
          have := hmin j hj2
          simp only [List.take_succ_cons, runValue_cons, sumIBytes_cons]
          have : ibytes u = ub := by
            unfold ibytes
            rw [hub]
            rfl
          rw [show bytes + (ibytes u + sumIBytes (rest.take j)) = bytes + ub + sumIBytes (rest.take j) by omega]
          exact hmin j hj2
      · have hib : ibytes u = ub := by
          unfold ibytes
          rw [hub]
          rfl
        rcases hstop with hs | hs
        · left
          simp only [List.take_succ_cons, runValue_cons, sumIBytes_cons]
          rw [show bytes + (ibytes u + sumIBytes (rest.take k)) = bytes + ub + sumIBytes (rest.take k) by omega]
          exact hs
        · right
          simp [hs]

/-- C5: under a valid fee rate and defined sizes, the accumulation loop of
the selector iterates exactly the non-required remainder of availableInputs
in the order supplied by the caller (the drawn inputs are an initial
segment of that remainder, with no re-sorting), adds each drawn input's
value and byte size (hence its marginal fee feeRate × size) to the running
totals, and stops as soon as the running input value is at least the
running output value plus the running fee: no proper prefix of the drawn
segment is funded, and the loop hands exactly the skeleton-plus-prefix
totals to finalize (or reports the final fee if it exhausted the list). -/
theorem selection_loop (utxos : List Utxo) (outputs : List TxOutput)
    (feeRate : Int) (changeScript : Option String) (bytes0 : Nat)
    (hfr : 0 ≤ feeRate)
    (hsz : ∀ u ∈ nonRequiredInputsOf utxos, (inputBytes (toTxInput u)).isSome)
    (hskel : transactionBytes ((requiredInputsOf utxos).map toTxInput) outputs = .ok bytes0) :
    ∃ k, k ≤ (nonRequiredInputsOf utxos).length ∧
      (∀ j, j < k → fundedAt feeRate (sumOrNaN (outputs.map TxOutput.value))
        (runValue (sumOrNaN ((requiredInputsOf utxos).map Utxo.value))
          ((nonRequiredInputsOf utxos).take j))
        (bytes0 + sumIBytes ((nonRequiredInputsOf utxos).take j)) = false) ∧
      (fundedAt feeRate (sumOrNaN (outputs.map TxOutput.value))
        (runValue (sumOrNaN ((requiredInputsOf utxos).map Utxo.value))
          ((nonRequiredInputsOf utxos).take k))
        (bytes0 + sumIBytes ((nonRequiredInputsOf utxos).take k)) = true ∨
        k = (nonRequiredInputsOf utxos).length) ∧
      accumulative utxos outputs feeRate changeScript =
        (if fundedAt feeRate (sumOrNaN (outputs.map TxOutput.value))
            (runValue (sumOrNaN ((requiredInputsOf utxos).map Utxo.value))
              ((nonRequiredInputsOf utxos).take k))
            (bytes0 + sumIBytes ((nonRequiredInputsOf utxos).take k)) then
          finalize (requiredInputsOf utxos ++ (nonRequiredInputsOf utxos).take k)
            outputs feeRate changeScript
        else .ok (.failure (feeRate *
          ((bytes0 + sumIBytes ((nonRequiredInputsOf utxos).take k) : Nat) : Int)))) := by
  have hguard : (uintOrNaN (some feeRate)).isNone = false := by
    simp only [uintOrNaN, Option.some_bind, if_neg (by omega : ¬feeRate < 0)]
    rfl
  rcases accumGo_spec feeRate (sumOrNaN (outputs.map TxOutput.value)) (nonRequiredInputsOf utxos)
      (sumOrNaN ((requiredInputsOf utxos).map Utxo.value)) bytes0 hsz with ⟨k, hk, heq, hmin, hstop⟩
  refine ⟨k, hk, hmin, hstop, ?_⟩
  unfold accumulative
  rw [hguard]
  simp only [Bool.false_eq_true, if_false]
  rw [hskel]
  dsimp only
  rw [heq]

/-- C5 witness: one non-required 100000-unit input funds a 50000-unit
output at fee rate 1, and the loop characterization holds concretely. -/
theorem selection_loop_witness :
    ∃ k, k ≤ (nonRequiredInputsOf [smallInput]).length ∧
      (∀ j, j < k → fundedAt 1 (sumOrNaN ([out50k].map TxOutput.value))
        (runValue (sumOrNaN ((requiredInputsOf [smallInput]).map Utxo.value))
          ((nonRequiredInputsOf [smallInput]).take j))
        (44 + sumIBytes ((nonRequiredInputsOf [smallInput]).take j)) = false) ∧
      (fundedAt 1 (sumOrNaN ([out50k].map TxOutput.value))
        (runValue (sumOrNaN ((requiredInputsOf [smallInput]).map Utxo.value))
          ((nonRequiredInputsOf [smallInput]).take k))
        (44 + sumIBytes ((nonRequiredInputsOf [smallInput]).take k)) = true ∨
        k = (nonRequiredInputsOf [smallInput]).length) ∧
      accumulative [smallInput] [out50k] 1 none =
        (if fundedAt 1 (sumOrNaN ([out50k].map TxOutput.value))
            (runValue (sumOrNaN ((requiredInputsOf [smallInput]).map Utxo.value))
              ((nonRequiredInputsOf [smallInput]).take k))
            (44 + sumIBytes ((nonRequiredInputsOf [smallInput]).take k)) then
          finalize (requiredInputsOf [smallInput] ++ (nonRequiredInputsOf [smallInput]).take k)
            [out50k] 1 none
        else .ok (.failure (1 *
          ((44 + sumIBytes ((nonRequiredInputsOf [smallInput]).take k) : Nat) : Int)))) :=
  selection_loop [smallInput] [out50k] 1 none 44 (by norm_num) (by decide) rfl

/-! ### Claim C6: insufficiency is a reported failure; no negative fee or change -/

theorem nGT_true_iff (a b : Option Int) :
    nGT a b = true ↔ ∃ x y, a = some x ∧ b = some y ∧ y < x := by
  cases a <;> cases b <;> simp [nGT]

theorem nSub_some_some (x y : Int) : nSub (some x) (some y) = some (x - y) := rfl

theorem accumGo_ok_value (fr : Int) (oa : Option Int) (l : List Utxo) :
    ∀ (i : Option Int) (b : Nat) (c : List Utxo) (i2 : Option Int) (b2 : Nat),
      accumGo fr oa l i b = .ok (c, i2, b2) → i2 = runValue i c := by
  induction l with
  | nil =>
    intro i b c i2 b2 h
    rw [accumGo_unfold] at h
    split at h <;>
      · injection h with h
        injection h with h1 h2
        injection h2 with h2 h3
        rw [← h1, ← h2, runValue_nil]
  | cons u rest ih =>
    intro i b c i2 b2 h
    rw [accumGo_unfold] at h
    split at h
    · injection h with h
      injection h with h1 h2
      injection h2 with h2 h3
      rw [← h1, ← h2, runValue_nil]
    · dsimp only at h
      cases hub : inputBytes (toTxInput u) with
      | none =>
        rw [hub] at h
        exact absurd h (by simp)
      | some ub =>
        rw [hub] at h
        dsimp only at h
        cases hrec : accumGo fr oa rest (nAdd i (uintOrNaN u.value)) (b + ub) with
        | error e =>
          rw [hrec] at h
          exact absurd h (by simp [Except.map])
        | ok r =>
          rw [hrec] at h
          simp only [Except.map] at h
          injection h with h
          injection h with h1 h2
          have hi2 : i2 = r.2.1 := by rw [h2]
          rw [← h1, runValue_cons, hi2]
          exact ih (nAdd i (uintOrNaN u.value)) (b + ub) r.1 r.2.1 r.2.2 (by rw [hrec])

theorem dustThreshold_nonneg (feeRate : Int) (hfr : 0 ≤ feeRate) :
    0 ≤ dustThreshold feeRate := by
  unfold dustThreshold
  have : ((((inputBytes { script := none, value := some 0 }).getD 0 : Nat)) : Int) = 148 := rfl
  rw [this]
  positivity

/-- Analysis of the change decision of finalize for defined totals. -/
theorem withChange_cases (inputs : List Utxo) (outputs : List TxOutput) (feeRate : Int)
    (cs : Option String) (B cB : Nat) (x y : Int)
    (hin : sumOrNaN (inputs.map Utxo.value) = some x)
    (hout : sumOrNaN (outputs.map TxOutput.value) = some y) :
    (dustThreshold feeRate < x - (y + feeRate * ((B + cB : Nat) : Int)) ∧
      withChange inputs outputs feeRate cs B cB =
        outputs ++ [{ script := cs, value := some (x - (y + feeRate * ((B + cB : Nat) : Int))) }]) ∨
    (x - (y + feeRate * ((B + cB : Nat) : Int)) ≤ dustThreshold feeRate ∧
      withChange inputs outputs feeRate cs B cB = outputs) := by
  unfold withChange
  dsimp only
  rw [hin, hout, nAdd_some_some, nSub_some_some]
  by_cases hgt : dustThreshold feeRate < x - (y + feeRate * ((B + cB : Nat) : Int))
  · left
    refine ⟨hgt, ?_⟩
    have hc : nGT (some (x - (y + feeRate * ((B + cB : Nat) : Int))))
        (some (dustThreshold feeRate)) = true := by
      rw [nGT_true_iff]
      exact ⟨_, _, rfl, rfl, hgt⟩
    rw [if_pos hc]
  · right
    refine ⟨by omega, ?_⟩
    have hc : ¬nGT (some (x - (y + feeRate * ((B + cB : Nat) : Int))))
        (some (dustThreshold feeRate)) = true := by
      rw [nGT_true_iff]
      rintro ⟨a, b2, ha, hb, hab⟩
      injection ha with ha
      injection hb with hb
      omega
    rw [if_neg hc]

/-- The fee and outputs of a successful finalize are safe: the fee is
nonnegative and every output value (mandatory or change) is a defined
nonnegative number. -/
theorem finalize_success_nonneg (inputs : List Utxo) (outputs : List TxOutput)
    (feeRate : Int) (changeScript : Option String) (ins : List Utxo) (outs : List TxOutput)
    (f x y : Int) (bytesLoop : Nat)
    (hfr : 0 ≤ feeRate)
    (hin : sumOrNaN (inputs.map Utxo.value) = some x)
    (hout : sumOrNaN (outputs.map TxOutput.value) = some y)
    (hfund : y + feeRate * (bytesLoop : Int) ≤ x)
    (h : finalize inputs outputs feeRate changeScript = .ok (.success ins outs f)) :
    0 ≤ f ∧ ∀ o ∈ outs, ∃ v, o.value = some v ∧ 0 ≤ v := by
  unfold finalize at h
  cases hB : transactionBytes (inputs.map toTxInput) outputs with
  | error e =>
    rw [hB] at h
    exact absurd h (by simp)
  | ok B =>
    rw [hB] at h
    dsimp only at h
    cases hcB : outputBytes (changeOutput changeScript) with
    | none =>
      rw [hcB] at h
      exact absurd h (by simp)
    | some cB =>
      rw [hcB] at h
      dsimp only at h
      cases hfee : finalizeFee inputs outputs feeRate changeScript B cB with
      | none =>
        rw [hfee] at h
        exact absurd h (by simp)
      | some fee =>
        rw [hfee] at h
        dsimp only at h
        by_cases hcap : 10000000000 < fee
        · rw [if_pos hcap] at h
          exact absurd h (by simp)
        · rw [if_neg hcap] at h
          injection h with h
          injection h with h1 h2 h3
          unfold finalizeFee at hfee
          have houtvals : ∀ o ∈ outputs, ∃ v, o.value = some v ∧ 0 ≤ v := by
            intro o ho
            exact sumOrNaN_some_forall (outputs.map TxOutput.value) y hout o.value
              (List.mem_map.mpr ⟨o, ho, rfl⟩)
          rcases withChange_cases inputs outputs feeRate changeScript B cB x y hin hout with
            ⟨hgt, hwc⟩ | ⟨hle, hwc⟩
          · rw [hwc] at hfee h2
            have hr : 0 ≤ x - (y + feeRate * ((B + cB : Nat) : Int)) := by
              have := dustThreshold_nonneg feeRate hfr
              omega
            rw [List.map_append] at hfee
            simp only [List.map_cons, List.map_nil] at hfee
            rw [sumOrNaN_concat, hout] at hfee
            have hu : uintOrNaN (some (x - (y + feeRate * ((B + cB : Nat) : Int)))) =
                some (x - (y + feeRate * ((B + cB : Nat) : Int))) := by
              unfold uintOrNaN
              rw [Option.some_bind, if_neg (by omega)]
            rw [hu, nAdd_some_some, hin, nSub_some_some] at hfee
            injection hfee with hfee
            constructor
            · rw [← h3, ← hfee]
              have hbc : (0 : Int) ≤ feeRate * ((B + cB : Nat) : Int) :=
                mul_nonneg hfr (Int.natCast_nonneg _)
              omega
            · intro o ho
              rw [← h2] at ho
              rcases List.mem_append.mp ho with ho | ho
              · exact houtvals o ho
              · rcases List.mem_singleton.mp ho with rfl
                exact ⟨_, rfl, hr⟩
          · rw [hwc] at hfee h2
            rw [hin, hout, nSub_some_some] at hfee
            injection hfee with hfee
            constructor
            · rw [← h3, ← hfee]
              have hbc : (0 : Int) ≤ feeRate * (bytesLoop : Int) :=
                mul_nonneg hfr (Int.natCast_nonneg _)
              omega
            · intro o ho
              rw [← h2] at ho
              exact houtvals o ho

/-- C6: when the non-required inputs are exhausted without the running
input value reaching the running output value plus fee, the selector
returns the sparse InsufficientFunds result carrying only a fee (no
selected inputs or outputs); and in no case does a successful selection
carry a negative fee or an output (mandatory or change) with a negative or
undefined value. -/
theorem insufficient_funds_reported (utxos : List Utxo) (outputs : List TxOutput)
    (feeRate : Int) (changeScript : Option String) :
    (∀ bytes0, 0 ≤ feeRate →
      (∀ u ∈ nonRequiredInputsOf utxos, (inputBytes (toTxInput u)).isSome) →
      transactionBytes ((requiredInputsOf utxos).map toTxInput) outputs = .ok bytes0 →
      (∀ j, j ≤ (nonRequiredInputsOf utxos).length →
        fundedAt feeRate (sumOrNaN (outputs.map TxOutput.value))
          (runValue (sumOrNaN ((requiredInputsOf utxos).map Utxo.value))
            ((nonRequiredInputsOf utxos).take j))
          (bytes0 + sumIBytes ((nonRequiredInputsOf utxos).take j)) = false) →
      ∃ f, accumulative utxos outputs feeRate changeScript = .ok (.failure f)) ∧
    (∀ ins outs f, accumulative utxos outputs feeRate changeScript = .ok (.success ins outs f) →
      0 ≤ f ∧ ∀ o ∈ outs, ∃ v, o.value = some v ∧ 0 ≤ v) := by
  constructor
  · intro bytes0 hfr hsz hskel hnever
    rcases accumGo_spec feeRate (sumOrNaN (outputs.map TxOutput.value)) (nonRequiredInputsOf utxos)
        (sumOrNaN ((requiredInputsOf utxos).map Utxo.value)) bytes0 hsz with ⟨k, hk, heq, _, hstop⟩
    have hfk : fundedAt feeRate (sumOrNaN (outputs.map TxOutput.value))
        (runValue (sumOrNaN ((requiredInputsOf utxos).map Utxo.value))
          ((nonRequiredInputsOf utxos).take k))
        (bytes0 + sumIBytes ((nonRequiredInputsOf utxos).take k)) = false := hnever k hk
    refine ⟨feeRate * ((bytes0 + sumIBytes ((nonRequiredInputsOf utxos).take k) : Nat) : Int), ?_⟩
    have hguard : (uintOrNaN (some feeRate)).isNone = false := by
      simp only [uintOrNaN, Option.some_bind, if_neg (by omega : ¬feeRate < 0)]
      rfl
    unfold accumulative
    rw [hguard]
    simp only [Bool.false_eq_true, if_false]
    rw [hskel]
    dsimp only
    rw [heq]
    dsimp only
    rw [if_neg (by simp [hfk])]
  · intro ins outs f h
    unfold accumulative at h
    by_cases hg : (uintOrNaN (some feeRate)).isNone = true
    · rw [if_pos hg] at h
      exact absurd h (by simp)
    · rw [if_neg hg] at h
      dsimp only at h
      have hfr : 0 ≤ feeRate := by
        by_contra hneg
        exact hg (by simp [uintOrNaN, if_pos (by omega : feeRate < 0)])
      cases hB : transactionBytes ((requiredInputsOf utxos).map toTxInput) outputs with
      | error e =>
        rw [hB] at h
        exact absurd h (by simp)
      | ok bytes0 =>
        rw [hB] at h
        dsimp only at h
        cases hacc : accumGo feeRate (sumOrNaN (outputs.map TxOutput.value))
            (nonRequiredInputsOf utxos)
            (sumOrNaN ((requiredInputsOf utxos).map Utxo.value)) bytes0 with
        | error e =>
          rw [hacc] at h
          exact absurd h (by simp)
        | ok trip =>
          obtain ⟨chosen, i2, b2⟩ := trip
          rw [hacc] at h
          dsimp only at h
          by_cases hfund : fundedAt feeRate (sumOrNaN (outputs.map TxOutput.value)) i2 b2 = true
          · rw [if_pos hfund] at h
            have hval : i2 = sumOrNaN (((requiredInputsOf utxos) ++ chosen).map Utxo.value) := by
              rw [accumGo_ok_value feeRate (sumOrNaN (outputs.map TxOutput.value))
                (nonRequiredInputsOf utxos) (sumOrNaN ((requiredInputsOf utxos).map Utxo.value))
                bytes0 chosen i2 b2 hacc]
              exact runValue_eq_sumOrNaN (requiredInputsOf utxos) chosen
            rcases (nGE_true_iff _ _).mp hfund with ⟨x, z, hx, hz, hle⟩
            cases hoa : sumOrNaN (outputs.map TxOutput.value) with
            | none =>
              rw [hoa] at hz
              exact absurd hz (by simp [nAdd])
            | some y =>
              rw [hoa, nAdd_some_some] at hz
              injection hz with hz
              exact finalize_success_nonneg ((requiredInputsOf utxos) ++ chosen) outputs
                feeRate changeScript ins outs f x y b2 hfr (hval ▸ hx) hoa (by omega) h
          · rw [if_neg hfund] at h
            exact absurd h (by simp)

/-- C6 witness: a lone 10-unit input cannot fund a 50000-unit output at fee
rate 1, and the selector reports the sparse fee-only failure. -/
theorem insufficient_funds_reported_witness :
    ∃ f, accumulative [tinyInput] [out50k] 1 none = .ok (.failure f) :=
  (insufficient_funds_reported [tinyInput] [out50k] 1 none).1 44 (by norm_num) (by decide) rfl
    (by
      intro j hj
      have hlen : (nonRequiredInputsOf [tinyInput]).length = 1 := by decide
      rw [hlen] at hj
      interval_cases j <;> decide)

end Photonic
